import Mathlib

/-!
Verification of `requests.structures`: a shallow embedding of the three data
structures in `src/requests/structures.py` (`CaseInsensitiveDict`,
`LookupDict`, `NetworkTraffic`), together with proofs of the specified
properties.

`CaseInsensitiveDict._store` is a Python `OrderedDict` mapping the lowercased
key to the pair `(original key, value)`.  We model it as an ordered
association list `List (String × String × α)` whose first component is the
folded (lowercased) key.  `OrderedDict` assignment updates an existing key in
place (keeping its position) and appends a fresh key at the end; deletion
removes the entry; iteration follows list order.  Python `KeyError` is
modelled by `Option`.
-/

/-- Case folding as the source performs it: `key.lower()`, i.e. lowercase
every character of the string. -/
def fold (s : String) : String := ⟨s.data.map Char.toLower⟩

/-- First-match lookup in an association list, as Python dict lookup on the
distinct-key stores we build. -/
def assocLookup {β : Type} (s : List (String × β)) (k : String) : Option β :=
  match s with
  | [] => none
  | (k', v) :: rest => if k' = k then some v else assocLookup rest k

/-- `OrderedDict` assignment `d[k] = v`: update in place if `k` is present
(position preserved), otherwise append at the end. -/
def assocSet {β : Type} (s : List (String × β)) (k : String) (v : β) :
    List (String × β) :=
  match s with
  | [] => [(k, v)]
  | (k', v') :: rest =>
      if k' = k then (k', v) :: rest else (k', v') :: assocSet rest k v

/-- `OrderedDict` deletion `del d[k]`: drop the entry for `k`. -/
def assocDel {β : Type} (s : List (String × β)) (k : String) :
    List (String × β) :=
  match s with
  | [] => []
  | (k', v') :: rest =>
      if k' = k then rest else (k', v') :: assocDel rest k

/-- `CaseInsensitiveDict`: the `_store` ordered dict, keyed by the lowercased
key, holding `(original key, value)` pairs. -/
structure CaseInsensitiveDict (α : Type) where
  store : List (String × String × α)

namespace CaseInsensitiveDict

/-- `CaseInsensitiveDict()` with no data: the empty store. -/
def empty {α : Type} : CaseInsensitiveDict α := ⟨[]⟩

/-- `__setitem__`: `self._store[key.lower()] = (key, value)`. -/
def setItem {α : Type} (m : CaseInsensitiveDict α) (key : String) (v : α) :
    CaseInsensitiveDict α :=
  ⟨assocSet m.store (fold key) (key, v)⟩

/-- `__getitem__`: `self._store[key.lower()][1]`; `none` models `KeyError`. -/
def getItem {α : Type} (m : CaseInsensitiveDict α) (key : String) : Option α :=
  (assocLookup m.store (fold key)).map Prod.snd

/-- `__delitem__`: `del self._store[key.lower()]`; `none` models `KeyError`. -/
def delItem {α : Type} (m : CaseInsensitiveDict α) (key : String) :
    Option (CaseInsensitiveDict α) :=
  if (assocLookup m.store (fold key)).isSome then
    some ⟨assocDel m.store (fold key)⟩
  else none

/-- `__contains__` (inherited from `MutableMapping`): try `__getitem__`,
`KeyError` means absent. -/
def contains {α : Type} (m : CaseInsensitiveDict α) (key : String) : Bool :=
  (getItem m key).isSome

/-- `__iter__`: the original-cased keys, in store order. -/
def keys {α : Type} (m : CaseInsensitiveDict α) : List String :=
  m.store.map (fun p => p.2.1)

/-- `items()` (via `MutableMapping`): original-cased `(key, value)` pairs in
store order. -/
def items {α : Type} (m : CaseInsensitiveDict α) : List (String × α) :=
  m.store.map Prod.snd

/-- `lower_items()`: `(lowercased key, value)` pairs in store order. -/
def lowerItems {α : Type} (m : CaseInsensitiveDict α) : List (String × α) :=
  m.store.map (fun p => (p.1, p.2.2))

/-- `__len__`: `len(self._store)`. -/
def length {α : Type} (m : CaseInsensitiveDict α) : Nat :=
  m.store.length

/-- `__init__(data)` / `update(data)`: set each `(key, value)` pair of `data`
in order, starting from an empty store. -/
def ofPairs {α : Type} (ps : List (String × α)) : CaseInsensitiveDict α :=
  ps.foldl (fun m p => setItem m p.1 p.2) empty

/-- `copy()`: `CaseInsensitiveDict(self._store.values())`, i.e. rebuild a
fresh map from the `(original key, value)` pairs. -/
def copy {α : Type} (m : CaseInsensitiveDict α) : CaseInsensitiveDict α :=
  ofPairs (items m)

/-- Python dict equality on the `dict(...)` built from `lower_items()`:
same key set and same value at every key. -/
def dictEqB {α : Type} [DecidableEq α] (a b : List (String × α)) : Bool :=
  a.all (fun p => decide (assocLookup b p.1 = some p.2)) &&
  b.all (fun p => decide (assocLookup a p.1 = some p.2))

/-- `__eq__` against a mapping operand: convert the operand with
`CaseInsensitiveDict(other)` and compare `dict(lower_items())` on both. -/
def ciEq {α : Type} [DecidableEq α] (a b : CaseInsensitiveDict α) : Bool :=
  dictEqB (lowerItems a) (lowerItems (ofPairs (items b)))

/-- The right operand of `__eq__`: either a mapping (given, as Python
iteration over a `Mapping` would, by its `(key, value)` pairs) or a
non-mapping value. -/
inductive EqOperand (α : Type) where
  | mapping (pairs : List (String × α))
  | nonMapping

/-- `__eq__`: a mapping operand is converted and compared case-insensitively;
a non-mapping operand yields `NotImplemented`, modelled as `none`. -/
def eqOp {α : Type} [DecidableEq α] (self : CaseInsensitiveDict α) :
    EqOperand α → Option Bool
  | .mapping ps => some (dictEqB (lowerItems self) (lowerItems (ofPairs ps)))
  | .nonMapping => none

/-- Store well-formedness, maintained by every constructor and mutator:
folded keys are distinct, and each entry's folded key is the fold of the
original key stored with it. -/
def WF {α : Type} (m : CaseInsensitiveDict α) : Prop :=
  (m.store.map Prod.fst).Nodup ∧ ∀ p ∈ m.store, fold p.2.1 = p.1

/-- A mutating operation on a map: `m[k] = v` or `del m[k]`. -/
inductive MapOp (α : Type) where
  | setOp (k : String) (v : α)
  | delOp (k : String)

/-- Run a mutating operation; a `del` of an absent key raises `KeyError` and
leaves the map as it was. -/
def applyOp {α : Type} (m : CaseInsensitiveDict α) : MapOp α → CaseInsensitiveDict α
  | .setOp k v => setItem m k v
  | .delOp k => (delItem m k).getD m

/-- In a world holding two maps, mutate the first one only. -/
def applyOpFst {α : Type} (p : CaseInsensitiveDict α × CaseInsensitiveDict α)
    (op : MapOp α) : CaseInsensitiveDict α × CaseInsensitiveDict α :=
  (applyOp p.1 op, p.2)

/-- In a world holding two maps, mutate the second one only. -/
def applyOpSnd {α : Type} (p : CaseInsensitiveDict α × CaseInsensitiveDict α)
    (op : MapOp α) : CaseInsensitiveDict α × CaseInsensitiveDict α :=
  (p.1, applyOp p.2 op)

end CaseInsensitiveDict

/-- `LookupDict`: a dict subclass whose lookups read the instance attribute
namespace `self.__dict__` (which holds at least `name`, possibly `None`),
not the inherited dict contents.  `attrs` models `self.__dict__` (values may
be Python `None`, hence `Option α`); `store` models the inherited dict
items. -/
structure LookupDict (α : Type) where
  attrs : List (String × Option α)
  store : List (String × α)

namespace LookupDict

/-- `__init__(name=None)`: sets `self.name = name`; the inherited dict starts
empty. -/
def new {α : Type} (name : Option α) : LookupDict α :=
  ⟨[("name", name)], []⟩

/-- `__getitem__`: `self.__dict__.get(key, None)` — never raises. -/
def getItem {α : Type} (t : LookupDict α) (key : String) : Option α :=
  (assocLookup t.attrs key).getD none

/-- `get(key, default=None)`: `self.__dict__.get(key, default)`. -/
def get {α : Type} (t : LookupDict α) (key : String) (default : Option α) :
    Option α :=
  (assocLookup t.attrs key).getD default

/-- Plain dict item assignment `dict.__setitem__(t, k, v)` (inherited):
writes the dict contents, not `self.__dict__`. -/
def dictSetItem {α : Type} (t : LookupDict α) (k : String) (v : α) :
    LookupDict α :=
  ⟨t.attrs, assocSet t.store k v⟩

end LookupDict

/-- `NetworkTraffic`: bytes uploaded (sent) and downloaded (received).
Python integers are unbounded, so the fields are `Int`. -/
structure NetworkTraffic where
  upload : Int
  download : Int
deriving DecidableEq

namespace NetworkTraffic

/-- `__add__`: field-wise sum into a fresh object; pure. -/
def add (a b : NetworkTraffic) : NetworkTraffic :=
  ⟨a.upload + b.upload, a.download + b.download⟩

/-- `__iadd__`: field-wise sum written back into `self`, which is returned.
In the pure embedding the updated value of `self` is the result. -/
def iadd (a b : NetworkTraffic) : NetworkTraffic :=
  { a with upload := a.upload + b.upload, download := a.download + b.download }

end NetworkTraffic

/-! ### Association-list lemmas -/

theorem assocLookup_assocSet_self {β : Type} (s : List (String × β)) (k : String) (v : β) :
    assocLookup (assocSet s k v) k = some v := by
  induction s with
  | nil => simp [assocSet, assocLookup]
  | cons p rest ih =>
    obtain ⟨k', v'⟩ := p
    by_cases h : k' = k <;> simp [assocSet, assocLookup, h, ih]

theorem assocLookup_assocSet_ne {β : Type} (s : List (String × β)) {k k' : String} (v : β)
    (h : k' ≠ k) : assocLookup (assocSet s k v) k' = assocLookup s k' := by
  induction s with
  | nil => simp [assocSet, assocLookup, Ne.symm h]
  | cons p rest ih =>
    obtain ⟨k₀, v₀⟩ := p
    by_cases h₀ : k₀ = k
    · subst h₀
      simp [assocSet, assocLookup, Ne.symm h]
    · simp [assocSet, assocLookup, h₀, ih]

theorem assocSet_of_absent {β : Type} {s : List (String × β)} {k : String} (v : β)
    (h : assocLookup s k = none) : assocSet s k v = s ++ [(k, v)] := by
  induction s with
  | nil => simp [assocSet]
  | cons p rest ih =>
    obtain ⟨k₀, v₀⟩ := p
    by_cases h₀ : k₀ = k
    · simp [assocLookup, h₀] at h
    · simp [assocLookup, h₀] at h
      simp [assocSet, h₀, ih h]

theorem assocSet_map_fst_of_present {β : Type} {s : List (String × β)} {k : String} (v : β)
    (h : (assocLookup s k).isSome = true) :
    (assocSet s k v).map Prod.fst = s.map Prod.fst := by
  induction s with
  | nil => simp [assocLookup] at h
  | cons p rest ih =>
    obtain ⟨k₀, v₀⟩ := p
    by_cases h₀ : k₀ = k
    · simp [assocSet, h₀]
    · simp [assocLookup, h₀] at h
      simp [assocSet, h₀, ih h]

theorem assocLookup_eq_none_iff {β : Type} (s : List (String × β)) (k : String) :
    assocLookup s k = none ↔ k ∉ s.map Prod.fst := by
  induction s with
  | nil => simp [assocLookup]
  | cons p rest ih =>
    obtain ⟨k₀, v₀⟩ := p
    simp only [assocLookup, List.map_cons, List.mem_cons]
    by_cases h₀ : k₀ = k
    · subst h₀
      simp
    · simp [h₀, ih, Ne.symm h₀]

theorem mem_of_assocLookup {β : Type} {s : List (String × β)} {k : String} {v : β}
    (h : assocLookup s k = some v) : (k, v) ∈ s := by
  induction s with
  | nil => simp [assocLookup] at h
  | cons p rest ih =>
    obtain ⟨k₀, v₀⟩ := p
    by_cases h₀ : k₀ = k
    · subst h₀
      simp [assocLookup] at h
      simp [h]
    · simp [assocLookup, h₀] at h
      exact List.mem_cons_of_mem _ (ih h)

theorem assocLookup_of_mem_nodup {β : Type} {s : List (String × β)} {k : String} {v : β}
    (hnd : (s.map Prod.fst).Nodup) (hmem : (k, v) ∈ s) : assocLookup s k = some v := by
  induction s with
  | nil => simp at hmem
  | cons p rest ih =>
    obtain ⟨k₀, v₀⟩ := p
    rw [List.map_cons, List.nodup_cons] at hnd
    rcases List.mem_cons.mp hmem with h | h
    · cases h
      simp [assocLookup]
    · have hk : k₀ ≠ k := by
        intro hk
        subst hk
        exact hnd.1 (List.mem_map.mpr ⟨(k₀, v), h, rfl⟩)
      simp [assocLookup, hk, ih hnd.2 h]

theorem mem_assocSet {β : Type} {s : List (String × β)} {k : String} {v : β} {p : String × β}
    (h : p ∈ assocSet s k v) : p ∈ s ∨ p = (k, v) := by
  induction s with
  | nil => simpa [assocSet] using h
  | cons q rest ih =>
    obtain ⟨k₀, v₀⟩ := q
    by_cases h₀ : k₀ = k
    · subst h₀
      rcases List.mem_cons.mp (by simpa [assocSet] using h) with h' | h'
      · exact Or.inr (h' ▸ rfl)
      · exact Or.inl (List.mem_cons_of_mem _ h')
    · rcases List.mem_cons.mp (by simpa [assocSet, h₀] using h) with h' | h'
      · exact Or.inl (h' ▸ List.mem_cons_self _ _)
      · rcases ih h' with h'' | h''
        · exact Or.inl (List.mem_cons_of_mem _ h'')
        · exact Or.inr h''

theorem assocSet_map_fst_nodup {β : Type} {s : List (String × β)} (k : String) (v : β)
    (hnd : (s.map Prod.fst).Nodup) : ((assocSet s k v).map Prod.fst).Nodup := by
  by_cases h : (assocLookup s k).isSome = true
  · rw [assocSet_map_fst_of_present v h]
    exact hnd
  · have hnone : assocLookup s k = none := by
      cases hl : assocLookup s k
      · rfl
      · simp [hl] at h
    rw [assocSet_of_absent v hnone, List.map_append, List.nodup_append]
    refine ⟨hnd, List.nodup_singleton _, ?_⟩
    intro a ha hb
    simp only [List.map_cons, List.map_nil, List.mem_singleton] at hb
    subst hb
    exact (assocLookup_eq_none_iff _ _).mp hnone ha

theorem assocLookup_append {β : Type} (a b : List (String × β)) (k : String) :
    assocLookup (a ++ b) k =
      match assocLookup a k with
      | some v => some v
      | none => assocLookup b k := by
  induction a with
  | nil => simp [assocLookup]
  | cons p rest ih =>
    obtain ⟨k₀, v₀⟩ := p
    by_cases h₀ : k₀ = k <;> simp [assocLookup, h₀, ih]

theorem assocDel_map_fst_sublist {β : Type} (s : List (String × β)) (k : String) :
    ((assocDel s k).map Prod.fst).Sublist (s.map Prod.fst) := by
  induction s with
  | nil => simp [assocDel]
  | cons p rest ih =>
    obtain ⟨k₀, v₀⟩ := p
    by_cases h₀ : k₀ = k
    · simp only [assocDel, h₀, if_pos rfl, List.map_cons]
      exact (List.Sublist.refl _).cons _
    · simp only [assocDel, h₀, if_neg h₀, List.map_cons]
      exact List.Sublist.cons₂ _ ih

theorem assocDel_sublist {β : Type} (s : List (String × β)) (k : String) :
    (assocDel s k).Sublist s := by
  induction s with
  | nil => simp [assocDel]
  | cons p rest ih =>
    obtain ⟨k₀, v₀⟩ := p
    by_cases h₀ : k₀ = k
    · simp only [assocDel, if_pos h₀]
      exact (List.Sublist.refl _).cons _
    · simp only [assocDel, if_neg h₀]
      exact List.Sublist.cons₂ _ ih

theorem assocLookup_assocDel_self {β : Type} {s : List (String × β)} (k : String)
    (hnd : (s.map Prod.fst).Nodup) : assocLookup (assocDel s k) k = none := by
  induction s with
  | nil => simp [assocDel, assocLookup]
  | cons p rest ih =>
    obtain ⟨k₀, v₀⟩ := p
    rw [List.map_cons, List.nodup_cons] at hnd
    by_cases h₀ : k₀ = k
    · subst h₀
      rw [assocDel, if_pos rfl, assocLookup_eq_none_iff]
      exact hnd.1
    · rw [assocDel, if_neg h₀, assocLookup, if_neg h₀]
      exact ih hnd.2

theorem assocLookup_assocDel_ne {β : Type} (s : List (String × β)) {k k' : String}
    (h : k' ≠ k) : assocLookup (assocDel s k) k' = assocLookup s k' := by
  induction s with
  | nil => simp [assocDel]
  | cons p rest ih =>
    obtain ⟨k₀, v₀⟩ := p
    by_cases h₀ : k₀ = k
    · subst h₀
      rw [assocDel, if_pos rfl, assocLookup, if_neg ?_]
      exact fun hk => h hk.symm
    · by_cases h₁ : k₀ = k' <;>
        simp [assocDel, assocLookup, h₀, h₁, ih, h]

namespace CaseInsensitiveDict

theorem WF_empty {α : Type} : WF (empty : CaseInsensitiveDict α) := by
  constructor <;> simp [empty, WF]

theorem WF_setItem {α : Type} {m : CaseInsensitiveDict α} (k : String) (v : α)
    (h : WF m) : WF (setItem m k v) := by
  refine ⟨assocSet_map_fst_nodup _ _ h.1, ?_⟩
  intro p hp
  rcases mem_assocSet hp with h' | h'
  · exact h.2 p h'
  · subst h'
    rfl

theorem WF_foldl_setItem {α : Type} (ps : List (String × α))
    (m : CaseInsensitiveDict α) (h : WF m) :
    WF (ps.foldl (fun m p => setItem m p.1 p.2) m) := by
  induction ps generalizing m with
  | nil => exact h
  | cons p rest ih => exact ih _ (WF_setItem _ _ h)

theorem WF_ofPairs {α : Type} (ps : List (String × α)) : WF (ofPairs ps) :=
  WF_foldl_setItem ps empty WF_empty

theorem WF_delItem {α : Type} {m m' : CaseInsensitiveDict α} {k : String}
    (h : WF m) (hdel : delItem m k = some m') : WF m' := by
  rw [delItem] at hdel
  by_cases hp : (assocLookup m.store (fold k)).isSome = true
  · rw [if_pos hp, Option.some.injEq] at hdel
    subst hdel
    refine ⟨(assocDel_map_fst_sublist _ _).nodup h.1, ?_⟩
    intro p hp'
    exact h.2 p ((assocDel_sublist _ _).subset hp')
  · rw [if_neg hp] at hdel
    exact absurd hdel (by simp)

/-- Rebuilding from pairs whose folded keys are fresh and mutually distinct
appends them to the accumulator's store in order. -/
theorem foldl_setItem_store {α : Type} (ps : List (String × α)) :
    ∀ (m : CaseInsensitiveDict α),
    (∀ p ∈ ps, assocLookup m.store (fold p.1) = none) →
    (ps.map (fun p => fold p.1)).Nodup →
    (ps.foldl (fun m p => setItem m p.1 p.2) m).store =
      m.store ++ ps.map (fun p => (fold p.1, p)) := by
  induction ps with
  | nil => intro m _ _; simp
  | cons p rest ih =>
    intro m habs hnd
    obtain ⟨k, v⟩ := p
    rw [List.map_cons, List.nodup_cons] at hnd
    have hstep : (setItem m k v).store = m.store ++ [(fold k, (k, v))] := by
      rw [setItem]
      exact assocSet_of_absent _ (habs (k, v) (List.mem_cons_self _ _))
    rw [List.foldl_cons, ih (setItem m k v) ?_ hnd.2, hstep, List.map_cons,
      List.append_assoc, List.singleton_append]
    intro q hq
    rw [hstep, assocLookup_append]
    rw [habs q (List.mem_cons_of_mem _ hq)]
    have hne : fold q.1 ≠ fold k := by
      intro hEq
      exact hnd.1 (hEq ▸ List.mem_map.mpr ⟨q, hq, rfl⟩)
    simp [assocLookup, Ne.symm hne]

/-- `copy()` rebuilds exactly the original store. -/
theorem copy_store {α : Type} {m : CaseInsensitiveDict α} (h : WF m) :
    (copy m).store = m.store := by
  rw [copy, ofPairs, foldl_setItem_store _ _ ?_ ?_]
  · rw [empty, List.nil_append, items]
    rw [List.map_map]
    have : ∀ q ∈ m.store, ((fun p => (fold p.1, p)) ∘ Prod.snd) q = id q := by
      intro q hq
      have := h.2 q hq
      simp only [Function.comp_apply, id_eq]
      rw [this]
    rw [List.map_congr_left this, List.map_id]
  · intro p _
    simp [empty, assocLookup]
  · rw [items, List.map_map]
    have : ∀ q ∈ m.store, ((fun p => fold p.1) ∘ Prod.snd) q = Prod.fst q := by
      intro q hq
      exact h.2 q hq
    rw [List.map_congr_left this]
    exact h.1

end CaseInsensitiveDict

namespace CaseInsensitiveDict

/-- Boolean dict comparison agrees with pointwise lookup agreement on stores
with distinct keys. -/
theorem dictEqB_iff {α : Type} [DecidableEq α] {a b : List (String × α)}
    (ha : (a.map Prod.fst).Nodup) (hb : (b.map Prod.fst).Nodup) :
    dictEqB a b = true ↔ ∀ k, assocLookup a k = assocLookup b k := by
  rw [dictEqB, Bool.and_eq_true, List.all_eq_true, List.all_eq_true]
  constructor
  · rintro ⟨h₁, h₂⟩ k
    cases hla : assocLookup a k with
    | some v =>
      have hb' := h₁ (k, v) (mem_of_assocLookup hla)
      rw [decide_eq_true_eq] at hb'
      rw [hb']
    | none =>
      cases hlb : assocLookup b k with
      | some w =>
        have ha' := h₂ (k, w) (mem_of_assocLookup hlb)
        rw [decide_eq_true_eq] at ha'
        rw [hla] at ha'
        exact absurd ha' (by simp)
      | none => rfl
  · intro h
    constructor
    · rintro ⟨k, v⟩ hp
      rw [decide_eq_true_eq, ← h k]
      exact assocLookup_of_mem_nodup ha hp
    · rintro ⟨k, v⟩ hp
      rw [decide_eq_true_eq, h k]
      exact assocLookup_of_mem_nodup hb hp

theorem lowerItems_nodup {α : Type} {m : CaseInsensitiveDict α} (h : WF m) :
    ((lowerItems m).map Prod.fst).Nodup := by
  rw [lowerItems, List.map_map]
  have heq : (Prod.fst ∘ fun p : String × String × α => (p.1, p.2.2)) =
      (Prod.fst : String × String × α → String) := rfl
  rw [heq]
  exact h.1

/-- When the right operand is a well-formed map, the conversion inside
`__eq__` rebuilds it exactly, so equality compares the two stores. -/
theorem ciEq_eq_dictEqB {α : Type} [DecidableEq α] (a b : CaseInsensitiveDict α)
    (hb : WF b) : ciEq a b = dictEqB (lowerItems a) (lowerItems b) := by
  rw [ciEq]
  have : ofPairs (items b) = copy b := rfl
  rw [this, lowerItems, lowerItems, copy_store hb]
  rfl

end CaseInsensitiveDict

namespace CaseInsensitiveDict

/-- List-level form: on a well-formed store, the original key recorded with
the entry for `fk` is the only mapped key that folds to `fk`. -/
theorem map_filter_fold_of_lookup {α : Type} (s : List (String × String × α)) :
    ∀ (fk ok : String) (v : α),
    (s.map Prod.fst).Nodup → (∀ p ∈ s, fold p.2.1 = p.1) →
    assocLookup s fk = some (ok, v) →
    (s.map (fun p => p.2.1)).filter (fun e => decide (fold e = fk)) = [ok] := by
  induction s with
  | nil =>
    intro fk ok v _ _ hl
    simp [assocLookup] at hl
  | cons p rest ih =>
    intro fk ok v hnd hfold hl
    obtain ⟨k₀, q⟩ := p
    rw [List.map_cons, List.nodup_cons] at hnd
    rw [List.map_cons, List.filter_cons]
    by_cases h₀ : k₀ = fk
    · subst h₀
      rw [assocLookup, if_pos rfl, Option.some.injEq] at hl
      subst hl
      have hofk : fold ok = k₀ := hfold (k₀, (ok, v)) (List.mem_cons_self _ _)
      rw [if_pos (by simp [hofk])]
      have hrest : (rest.map (fun p => p.2.1)).filter (fun e => decide (fold e = k₀)) = [] := by
        rw [List.filter_eq_nil_iff]
        intro e he
        obtain ⟨p, hp, rfl⟩ := List.mem_map.mp he
        have hfp := hfold p (List.mem_cons_of_mem _ hp)
        rw [decide_eq_true_eq, hfp]
        intro hEq
        exact hnd.1 (hEq ▸ List.mem_map.mpr ⟨p, hp, rfl⟩)
      rw [hrest]
    · rw [assocLookup, if_neg h₀] at hl
      have hq : fold q.1 = k₀ := hfold (k₀, q) (List.mem_cons_self _ _)
      rw [if_neg (by simp [hq, h₀])]
      exact ih fk ok v hnd.2 (fun p hp => hfold p (List.mem_cons_of_mem _ hp)) hl

/-- On a well-formed map, the key recorded with the entry for `fk` is the
only iterated key that folds to `fk`. -/
theorem keys_filter_fold {α : Type} {m : CaseInsensitiveDict α} (hwf : WF m)
    {fk ok : String} {v : α} (hl : assocLookup m.store fk = some (ok, v)) :
    (keys m).filter (fun e => decide (fold e = fk)) = [ok] :=
  map_filter_fold_of_lookup m.store fk ok v hwf.1 hwf.2 hl

end CaseInsensitiveDict

/-! ### Claims -/

/-- Claim C1: lookup is case-insensitive: whenever `fold k1 = fold k2`, after
`set(k1, v)` on any map, `get(k2)` returns `v` and `contains(k2)` is true. -/
theorem c1_lookup_case_insensitive {α : Type} (m : CaseInsensitiveDict α)
    (k1 k2 : String) (v : α) (h : fold k1 = fold k2) :
    CaseInsensitiveDict.getItem (CaseInsensitiveDict.setItem m k1 v) k2 = some v ∧
    CaseInsensitiveDict.contains (CaseInsensitiveDict.setItem m k1 v) k2 = true := by
  have hget : CaseInsensitiveDict.getItem (CaseInsensitiveDict.setItem m k1 v) k2 = some v := by
    rw [CaseInsensitiveDict.getItem, CaseInsensitiveDict.setItem, ← h,
      assocLookup_assocSet_self]
    rfl
  exact ⟨hget, by rw [CaseInsensitiveDict.contains, hget]; rfl⟩

/-- Witness for C1 at `m = empty`, `k1 = "Accept"`, `k2 = "aCCEPT"`. -/
theorem c1_lookup_case_insensitive_witness :
    CaseInsensitiveDict.getItem
        (CaseInsensitiveDict.setItem (CaseInsensitiveDict.empty : CaseInsensitiveDict String)
          "Accept" "application/json") "aCCEPT" = some "application/json" ∧
    CaseInsensitiveDict.contains
        (CaseInsensitiveDict.setItem (CaseInsensitiveDict.empty : CaseInsensitiveDict String)
          "Accept" "application/json") "aCCEPT" = true :=
  c1_lookup_case_insensitive CaseInsensitiveDict.empty "Accept" "aCCEPT"
    "application/json" (by decide)

/-- Claim C2: setting the same folded key twice keeps exactly one entry whose
recorded casing is that of the last set, iterated exactly once; and the map
built from `[("Accept","json"), ("accept","xml")]` has length 1,
`get("ACCEPT") = "xml"` and `keys() = ["accept"]`. -/
theorem c2_last_write_wins {α : Type} (m : CaseInsensitiveDict α)
    (k1 k2 : String) (v1 v2 : α) (hwf : CaseInsensitiveDict.WF m)
    (h : fold k1 = fold k2) :
    ((CaseInsensitiveDict.keys
        (CaseInsensitiveDict.setItem (CaseInsensitiveDict.setItem m k1 v1) k2 v2)).filter
        (fun e => decide (fold e = fold k2)) = [k2] ∧
      CaseInsensitiveDict.getItem
        (CaseInsensitiveDict.setItem (CaseInsensitiveDict.setItem m k1 v1) k2 v2) k2 =
        some v2 ∧
      CaseInsensitiveDict.length
        (CaseInsensitiveDict.setItem (CaseInsensitiveDict.setItem m k1 v1) k2 v2) =
        CaseInsensitiveDict.length (CaseInsensitiveDict.setItem m k1 v1)) ∧
    (CaseInsensitiveDict.length
        (CaseInsensitiveDict.ofPairs [("Accept", "json"), ("accept", "xml")] :
          CaseInsensitiveDict String) = 1 ∧
      CaseInsensitiveDict.getItem
        (CaseInsensitiveDict.ofPairs [("Accept", "json"), ("accept", "xml")] :
          CaseInsensitiveDict String) "ACCEPT" = some "xml" ∧
      CaseInsensitiveDict.keys
        (CaseInsensitiveDict.ofPairs [("Accept", "json"), ("accept", "xml")] :
          CaseInsensitiveDict String) = ["accept"]) := by
  refine ⟨⟨?_, ?_, ?_⟩, by rfl, by decide, by rfl⟩
  · have hwf2 : CaseInsensitiveDict.WF
        (CaseInsensitiveDict.setItem (CaseInsensitiveDict.setItem m k1 v1) k2 v2) :=
      CaseInsensitiveDict.WF_setItem _ _ (CaseInsensitiveDict.WF_setItem _ _ hwf)
    refine CaseInsensitiveDict.keys_filter_fold hwf2 (v := v2) ?_
    rw [CaseInsensitiveDict.setItem, assocLookup_assocSet_self]
  · rw [CaseInsensitiveDict.getItem, CaseInsensitiveDict.setItem,
      assocLookup_assocSet_self]
    rfl
  · have hpres : (assocLookup (CaseInsensitiveDict.setItem m k1 v1).store
        (fold k2)).isSome = true := by
      rw [CaseInsensitiveDict.setItem, ← h, assocLookup_assocSet_self]
      rfl
    have hfst := assocSet_map_fst_of_present (s := (CaseInsensitiveDict.setItem m k1 v1).store)
      (k2, v2) hpres
    rw [CaseInsensitiveDict.length, CaseInsensitiveDict.length, CaseInsensitiveDict.setItem,
      ← List.length_map _ Prod.fst, hfst, List.length_map]

/-- Witness for C2 at `m = empty`, `k1 = "Accept"`, `k2 = "accept"`. -/
theorem c2_last_write_wins_witness :
    (CaseInsensitiveDict.keys
        (CaseInsensitiveDict.setItem
          (CaseInsensitiveDict.setItem (CaseInsensitiveDict.empty : CaseInsensitiveDict String)
            "Accept" "json") "accept" "xml")).filter
        (fun e => decide (fold e = fold "accept")) = ["accept"] ∧
    CaseInsensitiveDict.getItem
        (CaseInsensitiveDict.setItem
          (CaseInsensitiveDict.setItem (CaseInsensitiveDict.empty : CaseInsensitiveDict String)
            "Accept" "json") "accept" "xml") "accept" = some "xml" ∧
    CaseInsensitiveDict.length
        (CaseInsensitiveDict.setItem
          (CaseInsensitiveDict.setItem (CaseInsensitiveDict.empty : CaseInsensitiveDict String)
            "Accept" "json") "accept" "xml") =
      CaseInsensitiveDict.length
        (CaseInsensitiveDict.setItem (CaseInsensitiveDict.empty : CaseInsensitiveDict String)
          "Accept" "json") :=
  (c2_last_write_wins CaseInsensitiveDict.empty "Accept" "accept" "json" "xml"
    CaseInsensitiveDict.WF_empty (by decide)).1

/-- Claim C3: in-place accumulation agrees with pure combination: for all
counters, `iadd a b` leaves `a` holding exactly `add a b` of its prior state
(and `b` is untouched, the embedding being value-based); concretely
`add (100,200) (50,150) = (150,350)` and accumulating `(100,200)` then
`(50,150)` into `(0,0)` also yields `(150,350)`. -/
theorem c3_combine_accumulate_agree :
    (∀ a b : NetworkTraffic, NetworkTraffic.iadd a b = NetworkTraffic.add a b) ∧
    NetworkTraffic.add ⟨100, 200⟩ ⟨50, 150⟩ = ⟨150, 350⟩ ∧
    NetworkTraffic.iadd (NetworkTraffic.iadd ⟨0, 0⟩ ⟨100, 200⟩) ⟨50, 150⟩ = ⟨150, 350⟩ :=
  ⟨fun _ _ => rfl, by decide, by decide⟩

/-- Claim C9: `NetworkTraffic.add` is associative and commutative with
identity `(0, 0)`: a commutative monoid on counter values. -/
theorem c9_add_comm_monoid (a b c : NetworkTraffic) :
    NetworkTraffic.add a (NetworkTraffic.add b c) =
      NetworkTraffic.add (NetworkTraffic.add a b) c ∧
    NetworkTraffic.add a b = NetworkTraffic.add b a ∧
    NetworkTraffic.add a ⟨0, 0⟩ = a := by
  obtain ⟨au, ad⟩ := a
  obtain ⟨bu, bd⟩ := b
  obtain ⟨cu, cd⟩ := c
  refine ⟨?_, ?_, ?_⟩ <;>
    simp only [NetworkTraffic.add, NetworkTraffic.mk.injEq] <;>
    constructor <;> omega

/-- Claim C6: `LookupDict` access never fails: `get` returns the stored value
when the key is in the attribute namespace and the default otherwise,
subscript access coincides with `get(key, None)`, and on a fresh table both
return the `None` sentinel for a missing key. -/
theorem c6_lookup_never_fails {α : Type} (t : LookupDict α) (k : String)
    (d : Option α) :
    (∀ v, assocLookup t.attrs k = some v → LookupDict.get t k d = v) ∧
    (assocLookup t.attrs k = none → LookupDict.get t k d = d) ∧
    LookupDict.getItem t k = LookupDict.get t k none ∧
    LookupDict.get (LookupDict.new (none : Option String)) "missing" none = none ∧
    LookupDict.getItem (LookupDict.new (none : Option String)) "missing" = none := by
  refine ⟨?_, ?_, rfl, rfl, rfl⟩
  · intro v hv
    rw [LookupDict.get, hv]
    rfl
  · intro hv
    rw [LookupDict.get, hv]
    rfl

/-- Witness for C6 on the table named `"codes"`, at a present and at a
missing key. -/
theorem c6_lookup_never_fails_witness :
    LookupDict.get (LookupDict.new (some "codes")) "name" (some "dflt") = some "codes" ∧
    LookupDict.get (LookupDict.new (some "codes")) "missing" (some "dflt") = some "dflt" :=
  ⟨(c6_lookup_never_fails (LookupDict.new (some "codes")) "name" (some "dflt")).1
      (some "codes") (by rfl),
    (c6_lookup_never_fails (LookupDict.new (some "codes")) "missing" (some "dflt")).2.1
      (by rfl)⟩

/-- Claim C10: `LookupDict` reads the attribute namespace, not ordinary dict
items: a table constructed with name `n` answers `n` at key `"name"`, while a
key written through plain dict item assignment stays invisible to both `get`
and subscript access, which return the sentinel for it. -/
theorem c10_attribute_namespace_lookup {α : Type} (t : LookupDict α)
    (k k' : String) (v : α) (n : α) (d : Option α) :
    LookupDict.getItem (LookupDict.new (some n)) "name" = some n ∧
    LookupDict.get (LookupDict.new (some n)) "name" none = some n ∧
    LookupDict.getItem (LookupDict.dictSetItem t k v) k' = LookupDict.getItem t k' ∧
    LookupDict.get (LookupDict.dictSetItem t k v) k' d = LookupDict.get t k' d ∧
    (assocLookup t.attrs k = none →
      LookupDict.getItem (LookupDict.dictSetItem t k v) k = none ∧
      LookupDict.get (LookupDict.dictSetItem t k v) k none = none) := by
  refine ⟨rfl, rfl, rfl, rfl, ?_⟩
  intro hk
  constructor
  · rw [LookupDict.getItem, LookupDict.dictSetItem, hk]
    rfl
  · rw [LookupDict.get, LookupDict.dictSetItem, hk]
    rfl

/-- Witness for C10: on a fresh table named `"codes"`, a dict item written at
`"status"` is invisible to `get` and subscript access. -/
theorem c10_attribute_namespace_lookup_witness :
    LookupDict.getItem
        (LookupDict.dictSetItem (LookupDict.new (some "codes")) "status" "ok") "status" =
      none ∧
    LookupDict.get
        (LookupDict.dictSetItem (LookupDict.new (some "codes")) "status" "ok") "status"
        none = none :=
  (c10_attribute_namespace_lookup (LookupDict.new (some "codes")) "status" "other"
    "ok" "codes" none).2.2.2.2 (by rfl)

/-- Claim C4: two maps compare equal exactly when their folded-key-to-value
mappings agree, irrespective of recorded casing and of insertion order
(concretely `{"Accept": "x"}` equals `{"ACCEPT": "x"}` and a reordered
two-key map, but not `{"Accept": "y"}`), and comparison against a
non-mapping operand yields the defined negative result, not an error. -/
theorem c4_case_insensitive_equality {α : Type} [DecidableEq α]
    (a b : CaseInsensitiveDict α) (hwa : CaseInsensitiveDict.WF a)
    (hwb : CaseInsensitiveDict.WF b) :
    (CaseInsensitiveDict.ciEq a b = true ↔
      ∀ fk, assocLookup (CaseInsensitiveDict.lowerItems a) fk =
        assocLookup (CaseInsensitiveDict.lowerItems b) fk) ∧
    CaseInsensitiveDict.ciEq
        (CaseInsensitiveDict.ofPairs [("Accept", "x")] : CaseInsensitiveDict String)
        (CaseInsensitiveDict.ofPairs [("ACCEPT", "x")]) = true ∧
    CaseInsensitiveDict.ciEq
        (CaseInsensitiveDict.ofPairs [("Accept", "x")] : CaseInsensitiveDict String)
        (CaseInsensitiveDict.ofPairs [("Accept", "y")]) = false ∧
    CaseInsensitiveDict.ciEq
        (CaseInsensitiveDict.ofPairs [("Accept", "x"), ("Host", "h")] :
          CaseInsensitiveDict String)
        (CaseInsensitiveDict.ofPairs [("Host", "h"), ("Accept", "x")]) = true ∧
    CaseInsensitiveDict.eqOp
        (CaseInsensitiveDict.ofPairs [("Accept", "x")] : CaseInsensitiveDict String)
        CaseInsensitiveDict.EqOperand.nonMapping = none := by
  refine ⟨?_, by decide, by decide, by decide, rfl⟩
  rw [CaseInsensitiveDict.ciEq_eq_dictEqB a b hwb]
  exact CaseInsensitiveDict.dictEqB_iff (CaseInsensitiveDict.lowerItems_nodup hwa)
    (CaseInsensitiveDict.lowerItems_nodup hwb)

/-- Witness for C4: the equality rule instantiated on `{"Accept": "x"}` and
`{"ACCEPT": "x"}`, read at folded key `"accept"`. -/
theorem c4_case_insensitive_equality_witness :
    assocLookup
        (CaseInsensitiveDict.lowerItems
          (CaseInsensitiveDict.ofPairs [("Accept", "x")] : CaseInsensitiveDict String))
        "accept" =
      assocLookup
        (CaseInsensitiveDict.lowerItems
          (CaseInsensitiveDict.ofPairs [("ACCEPT", "x")] : CaseInsensitiveDict String))
        "accept" :=
  ((c4_case_insensitive_equality
      (CaseInsensitiveDict.ofPairs [("Accept", "x")])
      (CaseInsensitiveDict.ofPairs [("ACCEPT", "x")])
      (CaseInsensitiveDict.WF_ofPairs _) (CaseInsensitiveDict.WF_ofPairs _)).1.mp
    (by decide)) "accept"

/-- Claim C5: `set` appends to the end of iteration order exactly when the
folded key is new, and an update of a present folded key keeps every entry's
position (the folded-key sequence is unchanged); keys and items replay the
original-cased entries in store order. -/
theorem c5_insertion_order {α : Type} (m : CaseInsensitiveDict α) (k : String)
    (v : α) :
    (assocLookup m.store (fold k) = none →
      CaseInsensitiveDict.keys (CaseInsensitiveDict.setItem m k v) =
        CaseInsensitiveDict.keys m ++ [k] ∧
      CaseInsensitiveDict.items (CaseInsensitiveDict.setItem m k v) =
        CaseInsensitiveDict.items m ++ [(k, v)]) ∧
    ((assocLookup m.store (fold k)).isSome = true →
      (CaseInsensitiveDict.setItem m k v).store.map Prod.fst =
        m.store.map Prod.fst) := by
  constructor
  · intro h
    constructor
    · rw [CaseInsensitiveDict.keys, CaseInsensitiveDict.keys, CaseInsensitiveDict.setItem,
        assocSet_of_absent _ h, List.map_append]
      rfl
    · rw [CaseInsensitiveDict.items, CaseInsensitiveDict.items, CaseInsensitiveDict.setItem,
        assocSet_of_absent _ h, List.map_append]
      rfl
  · intro h
    rw [CaseInsensitiveDict.setItem]
    exact assocSet_map_fst_of_present _ h

/-- Witness for C5: appending a fresh key to the empty map, and updating the
present folded key of a one-entry map. -/
theorem c5_insertion_order_witness :
    (CaseInsensitiveDict.keys
        (CaseInsensitiveDict.setItem (CaseInsensitiveDict.empty : CaseInsensitiveDict String)
          "Accept" "json") =
        CaseInsensitiveDict.keys (CaseInsensitiveDict.empty : CaseInsensitiveDict String) ++
          ["Accept"] ∧
      CaseInsensitiveDict.items
        (CaseInsensitiveDict.setItem (CaseInsensitiveDict.empty : CaseInsensitiveDict String)
          "Accept" "json") =
        CaseInsensitiveDict.items (CaseInsensitiveDict.empty : CaseInsensitiveDict String) ++
          [("Accept", "json")]) ∧
    (CaseInsensitiveDict.setItem
        (CaseInsensitiveDict.ofPairs [("Accept", "json")] : CaseInsensitiveDict String)
        "ACCEPT" "xml").store.map Prod.fst =
      (CaseInsensitiveDict.ofPairs [("Accept", "json")] :
        CaseInsensitiveDict String).store.map Prod.fst :=
  ⟨(c5_insertion_order CaseInsensitiveDict.empty "Accept" "json").1 rfl,
    (c5_insertion_order (CaseInsensitiveDict.ofPairs [("Accept", "json")]) "ACCEPT" "xml").2
      (by decide)⟩

/-- Claim C7: strict access fails exactly on absent folded keys: `get`
returns the stored value for `fold(key)` and raises `KeyError` iff `fold(key)`
has no entry; `delete` removes exactly the entry for `fold(key)` (leaving
every other folded key's entry intact) and raises `KeyError` iff `fold(key)`
has no entry. -/
theorem c7_key_not_found {α : Type} (m : CaseInsensitiveDict α) (k : String)
    (hwf : CaseInsensitiveDict.WF m) :
    (CaseInsensitiveDict.getItem m k = none ↔ assocLookup m.store (fold k) = none) ∧
    (∀ ok v, assocLookup m.store (fold k) = some (ok, v) →
      CaseInsensitiveDict.getItem m k = some v) ∧
    (CaseInsensitiveDict.delItem m k = none ↔ assocLookup m.store (fold k) = none) ∧
    (∀ m', CaseInsensitiveDict.delItem m k = some m' →
      assocLookup m'.store (fold k) = none ∧
      ∀ fk, fk ≠ fold k → assocLookup m'.store fk = assocLookup m.store fk) := by
  refine ⟨?_, ?_, ?_, ?_⟩
  · rw [CaseInsensitiveDict.getItem]
    cases hl : assocLookup m.store (fold k) <;> simp [hl]
  · intro ok v h
    rw [CaseInsensitiveDict.getItem, h]
    rfl
  · cases hl : assocLookup m.store (fold k) <;>
      simp [CaseInsensitiveDict.delItem, hl]
  · intro m' h
    cases hl : assocLookup m.store (fold k) with
    | none =>
      rw [CaseInsensitiveDict.delItem, hl] at h
      simp at h
    | some q =>
      rw [CaseInsensitiveDict.delItem, hl] at h
      simp only [Option.isSome_some, if_pos, Option.some.injEq] at h
      subst h
      exact ⟨assocLookup_assocDel_self _ hwf.1,
        fun fk hfk => assocLookup_assocDel_ne _ hfk⟩

/-- Witness for C7: reading `"ACCEPT"` from `{"Accept": "json"}` returns the
stored value. -/
theorem c7_key_not_found_witness :
    CaseInsensitiveDict.getItem
        (CaseInsensitiveDict.ofPairs [("Accept", "json")] : CaseInsensitiveDict String)
        "ACCEPT" = some "json" :=
  (c7_key_not_found (CaseInsensitiveDict.ofPairs [("Accept", "json")]) "ACCEPT"
    (CaseInsensitiveDict.WF_ofPairs _)).2.1 "Accept" "json" (by decide)

/-- Claim C8: `copy()` produces an independent map with identical entries
(original casings, values and order), equal to the original under the
case-insensitive equality rule; mutating either of the two maps leaves the
other unchanged. -/
theorem c8_copy_snapshot {α : Type} [DecidableEq α] (m : CaseInsensitiveDict α)
    (hwf : CaseInsensitiveDict.WF m) :
    (CaseInsensitiveDict.copy m).store = m.store ∧
    CaseInsensitiveDict.ciEq (CaseInsensitiveDict.copy m) m = true ∧
    ∀ op : CaseInsensitiveDict.MapOp α,
      (CaseInsensitiveDict.applyOpSnd (m, CaseInsensitiveDict.copy m) op).1 = m ∧
      (CaseInsensitiveDict.applyOpFst (m, CaseInsensitiveDict.copy m) op).2 =
        CaseInsensitiveDict.copy m := by
  have hwfc : CaseInsensitiveDict.WF (CaseInsensitiveDict.copy m) :=
    CaseInsensitiveDict.WF_ofPairs _
  refine ⟨CaseInsensitiveDict.copy_store hwf, ?_, fun op => ⟨rfl, rfl⟩⟩
  have hrw : CaseInsensitiveDict.ciEq (CaseInsensitiveDict.copy m) m =
      CaseInsensitiveDict.dictEqB
        (CaseInsensitiveDict.lowerItems (CaseInsensitiveDict.copy m))
        (CaseInsensitiveDict.lowerItems (CaseInsensitiveDict.copy m)) := rfl
  rw [hrw]
  exact (CaseInsensitiveDict.dictEqB_iff (CaseInsensitiveDict.lowerItems_nodup hwfc)
    (CaseInsensitiveDict.lowerItems_nodup hwfc)).mpr (fun _ => rfl)

/-- Witness for C8 on the map `{"Accept": "json"}`. -/
theorem c8_copy_snapshot_witness :
    (CaseInsensitiveDict.copy
        (CaseInsensitiveDict.ofPairs [("Accept", "json")] : CaseInsensitiveDict String)).store =
      (CaseInsensitiveDict.ofPairs [("Accept", "json")] :
        CaseInsensitiveDict String).store :=
  (c8_copy_snapshot (CaseInsensitiveDict.ofPairs [("Accept", "json")])
    (CaseInsensitiveDict.WF_ofPairs _)).1
